import Mathlib

/- Shallow embedding of the real-time chat core of the social_media backend:
   src/app/api/v1/endpoints/chat.py (websocket endpoint, conversations,
   history, REST send), src/app/core/security.py (token payloads),
   src/app/models/chat.py (ChatMessage rows) and
   src/app/services/cache_service.py (online flag).  Machine ids are
   modelled as Int, timestamps as Nat, text as List Char. -/

namespace Chat

/-- A dynamic Python value as it flows through the websocket handler.
`create_access_token` (security.py line 39) coerces the JWT subject to a
string, while JSON frames carry numbers, and Python equality between an
int and a str is always false; both kinds of value reach the
`active_connections` dict and the frame fields, so the model keeps them
in one sum type. -/
inductive PyVal
  | pint : Int → PyVal
  | pstr : String → PyVal
deriving DecidableEq, Repr

/-- Python truthiness of a value: `not x` is true for 0 and "". -/
def PyVal.falsy : PyVal → Bool
  | .pint n => n = 0
  | .pstr s => s = ""

/-- A row of the `chat_messages` table (src/app/models/chat.py).  The
sender/receiver id type is a parameter: the REST handlers work with
ints (FastAPI coerces path params), while the websocket handler stores
whatever Python values it received.  `read_at` is absent until read. -/
structure Message (α : Type) where
  id : Nat
  content : List Char
  sender_id : α
  receiver_id : α
  is_read : Bool
  read_at : Option Nat
  created_at : Nat
deriving DecidableEq, Repr

/-- The module-level dict `active_connections` (chat.py line 18): an
association list from identity value to a numeric connection handle.
A Python dict holds at most one entry per key. -/
abbrev Registry := List (PyVal × Nat)

/-- Dict lookup `active_connections[k]` (also the membership test). -/
def regLookup (reg : Registry) (k : PyVal) : Option Nat :=
  (reg.find? (fun e => decide (e.1 = k))).map (fun e => e.2)

/-- Dict membership test `k in active_connections`. -/
def regContains (reg : Registry) (k : PyVal) : Bool :=
  reg.any (fun e => decide (e.1 = k))

/-- Dict assignment `active_connections[user_id] = websocket`
(chat.py line 38): replaces the entry in place when the key is present,
otherwise appends a new entry. -/
def regSet : Registry → PyVal → Nat → Registry
  | [], k, v => [(k, v)]
  | e :: rest, k, v => if e.1 = k then (k, v) :: rest else e :: regSet rest k v

/-- The close path (chat.py lines 126-129):
`if user_id in active_connections: del active_connections[user_id]`.
Removing the (unique) entry for the key when present, a no-op otherwise. -/
def regCleanup : Registry → PyVal → Registry
  | [], _ => []
  | e :: rest, k => if e.1 = k then rest else e :: regCleanup rest k

/-- At most one registry entry per identity. -/
def keysNodup (reg : Registry) : Prop := (reg.map Prod.fst).Nodup

/-- The decoded JWT payload as the websocket endpoint reads it:
`payload.get("type")` and `payload.get("sub")`.  Server-issued tokens
always carry the subject as a string (security.py lines 38-39). -/
structure TokenPayload where
  type : Option String
  sub : Option String
deriving DecidableEq, Repr

/-- Result of the websocket connect sequence (chat.py lines 21-39). -/
structure ConnResult where
  closedPolicyViolation : Bool
  registry : Registry
  online : List String
deriving DecidableEq, Repr

/-- websocket_endpoint authentication prefix (chat.py lines 26-39):
`decode_token` yields None on any JWTError; the frame of checks is
`if not payload or payload.get("type") != "access"` then
`user_id = payload.get("sub"); if not user_id`.  On failure the socket
is closed with WS_1008_POLICY_VIOLATION before being accepted; on
success it is accepted, registered under the subject string and the
subject is marked online (cache_service.set_user_online). -/
def wsConnect (reg : Registry) (online : List String)
    (payload : Option TokenPayload) (handle : Nat) : ConnResult :=
  match payload with
  | none => ⟨true, reg, online⟩
  | some p =>
    if p.type ≠ some "access" then ⟨true, reg, online⟩
    else
      match p.sub with
      | none => ⟨true, reg, online⟩
      | some s =>
        if s = "" then ⟨true, reg, online⟩
        else ⟨false, regSet reg (.pstr s) handle, s :: online⟩

/-- An outbound JSON frame (the `send_json` calls of chat.py). -/
inductive OutFrame
  | messageFrame (id : Nat) (content : List Char) (sender_id : PyVal) (created_at : Nat)
  | sentAck (id : Nat) (receiver_id : PyVal)
  | typingFrame (sender_id : PyVal)
  | readFrame (message_id : PyVal)
deriving DecidableEq, Repr

/-- Destination of an outbound frame: a registered peer handle, or the
originating session socket. -/
inductive OutEvent
  | toConn (handle : Nat) (frame : OutFrame)
  | toSelf (frame : OutFrame)
deriving DecidableEq, Repr

/-- Server-assigned autoincrement id: strictly larger than every id in
the store. -/
def nextId (store : List (Message α)) : Nat :=
  (store.map Message.id).foldr max 0 + 1

/-- Truthiness of an optional frame field read with `data.get`. -/
def optFalsy : Option PyVal → Bool
  | none => true
  | some v => v.falsy

/-- Handler for an inbound `{type:"message"}` frame (chat.py lines
49-86): `if not receiver_id or not content: continue`; otherwise the
ChatMessage is persisted (commit + refresh assigns the id), then
forwarded when the receiver value is a key of `active_connections`,
then a `sent` acknowledgment goes back to the sender's own socket.
The returned event list is in emission order: the forward (if any)
precedes the acknowledgment. -/
def handleMessageFrame (store : List (Message PyVal)) (reg : Registry)
    (user_id : PyVal) (receiver_id : Option PyVal)
    (content : Option (List Char)) (now : Nat) :
    List (Message PyVal) × List OutEvent :=
  match receiver_id, content with
  | some rid, some c =>
    if rid.falsy ∨ c = [] then (store, [])
    else
      let mid := nextId store
      let m : Message PyVal := ⟨mid, c, user_id, rid, false, none, now⟩
      let fwd := match regLookup reg rid with
        | some h => [OutEvent.toConn h (.messageFrame mid c user_id now)]
        | none => []
      (store ++ [m], fwd ++ [OutEvent.toSelf (.sentAck mid rid)])
  | _, _ => (store, [])

/-- Handler for an inbound `{type:"typing"}` frame (chat.py lines
88-96): `if receiver_id and receiver_id in active_connections` then
forward `{type:"typing", sender_id}` to the receiver's socket; the
Message Store is not touched (the handler does not even take it). -/
def handleTypingFrame (reg : Registry) (user_id : PyVal)
    (receiver_id : Option PyVal) : List OutEvent :=
  match receiver_id with
  | some rid =>
    if rid.falsy then []
    else
      match regLookup reg rid with
      | some h => [OutEvent.toConn h (.typingFrame user_id)]
      | none => []
  | none => []

/-- SQL equality between the integer `ChatMessage.id` column and a raw
frame value: only a matching int compares equal. -/
def idMatches (mid : Nat) (v : PyVal) : Bool :=
  decide (v = .pint (Int.ofNat mid))

/-- Handler for an inbound `{type:"read"}` frame (chat.py lines 98-122):
`if message_id` (truthy), select the message whose id matches and whose
receiver is the session identity; when found, set `is_read = True` and
re-stamp `read_at = datetime.utcnow()` unconditionally (the read flag is
not re-checked), commit, then notify the original sender when its
identity is a registry key.  Row ids are unique, so mapping over all
matching rows updates exactly the selected row. -/
def handleReadFrame (store : List (Message PyVal)) (reg : Registry)
    (user_id : PyVal) (message_id : Option PyVal) (now : Nat) :
    List (Message PyVal) × List OutEvent :=
  match message_id with
  | some mid =>
    if mid.falsy then (store, [])
    else
      match store.find? (fun m => idMatches m.id mid && decide (m.receiver_id = user_id)) with
      | some m =>
        let store2 := store.map (fun x =>
          if idMatches x.id mid && decide (x.receiver_id = user_id) then
            { x with is_read := true, read_at := some now }
          else x)
        let notify := match regLookup reg m.sender_id with
          | some h => [OutEvent.toConn h (.readFrame mid)]
          | none => []
        (store2, notify)
      | none => (store, [])
  | none => (store, [])

/-- A row of the users table, as read by the chat endpoints. -/
structure UserRow where
  id : Int
  username : String
  profile_picture : Option String
deriving DecidableEq, Repr

/-- An HTTPException raised by a REST handler. -/
structure HTTPError where
  status : Nat
  detail : String
deriving DecidableEq, Repr

/-- Existence check `select(User).where(User.id == uid)` is non-empty. -/
def userExists (users : List UserRow) (uid : Int) : Bool :=
  users.any (fun u => decide (u.id = uid))

/-- REST send path (chat.py lines 239-289): 404 when the receiver does
not exist, 400 when sending to oneself, otherwise persist one new
ChatMessage, best-effort forward to the receiver when registered (any
send failure is swallowed by the bare try/except), and return the
persisted message.  `forwardOk` models whether the live forward
succeeds; it can only influence the emitted events. -/
def sendMessageRest (users : List UserRow) (store : List (Message Int))
    (reg : Registry) (senderId receiver_id : Int) (content : List Char)
    (forwardOk : Bool) (now : Nat) :
    List (Message Int) × Except HTTPError (Message Int) × List OutEvent :=
  if ¬ userExists users receiver_id then
    (store, .error ⟨404, "Receiver not found"⟩, [])
  else if receiver_id = senderId then
    (store, .error ⟨400, "Cannot send message to yourself"⟩, [])
  else
    let m : Message Int := ⟨nextId store, content, senderId, receiver_id, false, none, now⟩
    let fwd := match regLookup reg (.pint receiver_id) with
      | some h =>
        if forwardOk then [OutEvent.toConn h (.messageFrame m.id content (.pint senderId) now)]
        else []
      | none => []
    (store ++ [m], .ok m, fwd)

/-- `ORDER BY created_at DESC`: a is at least as recent as b.  The SQL
sort is realized by a structural insertion sort over this relation. -/
def msgRecencyGe (a b : Message α) : Prop := b.created_at ≤ a.created_at

instance : DecidableRel (@msgRecencyGe α) := fun a b => Nat.decLe b.created_at a.created_at

instance : IsTotal (Message α) msgRecencyGe :=
  ⟨fun a b => le_total b.created_at a.created_at⟩

instance : IsTrans (Message α) msgRecencyGe :=
  ⟨fun _ _ _ h1 h2 => le_trans h2 h1⟩

deriving instance DecidableEq for Except

/-- The WHERE clause of the history query: messages of the (viewer,
other) pair in either direction. -/
def betweenPair (viewer other : Int) (m : Message Int) : Bool :=
  (decide (m.sender_id = viewer) && decide (m.receiver_id = other)) ||
  (decide (m.sender_id = other) && decide (m.receiver_id = viewer))

/-- Whether a fetched row gets mutated by the mark-as-read loop of
get_chat_history (chat.py lines 228-231). -/
def markedByHistory (viewer : Int) (fetched : List (Message Int)) (m : Message Int) : Bool :=
  fetched.any (fun f => decide (f.id = m.id)) && decide (m.receiver_id = viewer) && ! m.is_read

/-- GET /messages/{other_user_id} (chat.py lines 186-236): 404 when the
other user is unknown; otherwise fetch the bidirectional set ordered
newest first, apply OFFSET skip LIMIT limit, flip `is_read`/`read_at` on
every fetched row addressed to the viewer that is not yet read, commit,
and return the (mutated) page reversed into chronological order.
Returns the updated store together with the HTTP outcome. -/
def getHistory (users : List UserRow) (store : List (Message Int))
    (viewer other_user_id : Int) (skip limit : Nat) (now : Nat) :
    List (Message Int) × Except HTTPError (List (Message Int)) :=
  if ¬ userExists users other_user_id then
    (store, .error ⟨404, "User not found"⟩)
  else
    let fetched := (((store.filter (betweenPair viewer other_user_id)).insertionSort msgRecencyGe).drop skip).take limit
    let store2 := store.map (fun m =>
      if markedByHistory viewer fetched m then
        { m with is_read := true, read_at := some now }
      else m)
    let page := (fetched.map (fun m =>
      if decide (m.receiver_id = viewer) && ! m.is_read then
        { m with is_read := true, read_at := some now }
      else m)).reverse
    (store2, .ok page)

/-- One element of the GET /conversations response. -/
structure ConversationSummary where
  user_id : Int
  username : String
  profile_picture : Option String
  last_message : List Char
  last_message_time : Nat
  unread_count : Nat
deriving DecidableEq, Repr

/-- WHERE clause of the conversations query: viewer is sender or receiver. -/
def involvesViewer (viewer : Int) (m : Message Int) : Bool :=
  decide (m.sender_id = viewer) || decide (m.receiver_id = viewer)

/-- The counterpart of a message from the viewer's side (chat.py line 155). -/
def counterpartOf (viewer : Int) (m : Message Int) : Int :=
  if m.sender_id = viewer then m.receiver_id else m.sender_id

/-- The unread-count subquery (chat.py lines 159-167): messages from the
counterpart to the viewer with the read flag unset. -/
def unreadFrom (store : List (Message Int)) (viewer other : Int) : Nat :=
  store.countP (fun m =>
    decide (m.sender_id = other) && decide (m.receiver_id = viewer) && ! m.is_read)

/-- The grouping loop of get_conversations (chat.py lines 153-183) over
the newest-first message list: the first message seen per counterpart
wins; a counterpart already in the dict is skipped, and so is a
counterpart whose user row no longer exists.  Python dicts preserve
insertion order, so the accumulator is a list. -/
def buildConversations (users : List UserRow) (store : List (Message Int))
    (viewer : Int) : List (Message Int) → List ConversationSummary → List ConversationSummary
  | [], acc => acc
  | m :: rest, acc =>
    let other := counterpartOf viewer m
    if acc.any (fun s => decide (s.user_id = other)) then
      buildConversations users store viewer rest acc
    else
      match users.find? (fun u => decide (u.id = other)) with
      | some u =>
        buildConversations users store viewer rest
          (acc ++ [⟨u.id, u.username, u.profile_picture, m.content.take 50,
                    m.created_at, unreadFrom store viewer other⟩])
      | none => buildConversations users store viewer rest acc

/-- GET /conversations (chat.py lines 132-183). -/
def getConversations (users : List UserRow) (store : List (Message Int))
    (viewer : Int) : List ConversationSummary :=
  buildConversations users store viewer
    ((store.filter (involvesViewer viewer)).insertionSort msgRecencyGe) []

/-- Two user rows used by the concrete boundary scenarios. -/
def demoUsers : List UserRow := [⟨1, "alice", none⟩, ⟨2, "bob", none⟩]

/-- A conversation of 51 messages between users 1 and 2 with strictly
increasing timestamps 0..50; the even-indexed ones (including the
oldest, created_at = 0) are addressed to viewer 1. -/
def store51 : List (Message Int) :=
  (List.range 51).map (fun i =>
    ⟨i + 1, ['m'], if i % 2 = 0 then 2 else 1, if i % 2 = 0 then 1 else 2,
     false, none, i⟩)

end Chat

namespace Chat

lemma regLookup_cons (e : PyVal × Nat) (reg : Registry) (k : PyVal) :
    regLookup (e :: reg) k = if e.1 = k then some e.2 else regLookup reg k := by
  by_cases h : e.1 = k
  · simp [regLookup, List.find?_cons, h]
  · simp [regLookup, List.find?_cons, h]

lemma regLookup_regSet_self (reg : Registry) (k : PyVal) (v : Nat) :
    regLookup (regSet reg k v) k = some v := by
  induction reg with
  | nil => simp [regSet, regLookup_cons]
  | cons e rest ih =>
    by_cases h : e.1 = k
    · simp [regSet, h, regLookup_cons]
    · simp [regSet, h, regLookup_cons, ih]

lemma regLookup_regSet_other (reg : Registry) (k k2 : PyVal) (v : Nat) (h : k2 ≠ k) :
    regLookup (regSet reg k v) k2 = regLookup reg k2 := by
  have hkk : ¬ k = k2 := fun hx => h hx.symm
  induction reg with
  | nil => simp [regSet, regLookup_cons, regLookup, hkk]
  | cons e rest ih =>
    by_cases he : e.1 = k
    · have hek : e.1 ≠ k2 := by rw [he]; exact fun hx => h hx.symm
      rw [regSet, if_pos he, regLookup_cons, regLookup_cons]
      simp only [if_neg hkk, if_neg hek]
    · simp [regSet, he, regLookup_cons, ih]

lemma not_mem_keys_lookup_none (reg : Registry) (k : PyVal)
    (h : k ∉ reg.map Prod.fst) : regLookup reg k = none := by
  induction reg with
  | nil => rfl
  | cons e rest ih =>
    simp only [List.map_cons, List.mem_cons] at h
    push_neg at h
    rw [regLookup_cons, if_neg (fun hx => h.1 hx.symm)]
    exact ih h.2

lemma regContains_false_not_mem (reg : Registry) (k : PyVal)
    (h : regContains reg k = false) : k ∉ reg.map Prod.fst := by
  intro hmem
  simp only [regContains, List.any_eq_false, decide_eq_true_eq] at h
  obtain ⟨e, he, hek⟩ := List.mem_map.1 hmem
  exact h e he hek

lemma regSet_keys (reg : Registry) (k : PyVal) (v : Nat) :
    (regSet reg k v).map Prod.fst =
      if regContains reg k then reg.map Prod.fst else reg.map Prod.fst ++ [k] := by
  induction reg with
  | nil => simp [regSet, regContains]
  | cons e rest ih =>
    by_cases h : e.1 = k
    · simp [regSet, h, regContains, List.any_cons]
    · have hd : (decide (e.1 = k)) = false := by simp [h]
      simp only [regSet, if_neg h, List.map_cons, ih, regContains, List.any_cons, hd,
        Bool.false_or]
      by_cases hc : rest.any (fun e => decide (e.1 = k)) = true
      · simp [regContains] at hc ⊢
        simp [hc]
      · simp [regContains] at hc ⊢
        simp [hc]

lemma keysNodup_regSet (reg : Registry) (k : PyVal) (v : Nat)
    (h : keysNodup reg) : keysNodup (regSet reg k v) := by
  unfold keysNodup at h ⊢
  rw [regSet_keys]
  by_cases hc : regContains reg k
  · simp [hc, h]
  · simp only [hc, if_neg, Bool.false_eq_true, if_false]
    have hk : k ∉ reg.map Prod.fst :=
      regContains_false_not_mem reg k (by simpa using hc)
    simp [List.nodup_append, h, hk]

lemma regCleanup_sublist (reg : Registry) (k : PyVal) :
    (regCleanup reg k).Sublist reg := by
  induction reg with
  | nil => simp [regCleanup]
  | cons e rest ih =>
    by_cases h : e.1 = k
    · simp only [regCleanup, if_pos h]
      exact List.sublist_cons_self e rest
    · simpa [regCleanup, h] using ih.cons₂ e

lemma keysNodup_regCleanup (reg : Registry) (k : PyVal)
    (h : keysNodup reg) : keysNodup (regCleanup reg k) :=
  h.sublist ((regCleanup_sublist reg k).map Prod.fst)

lemma regLookup_regCleanup_self (reg : Registry) (k : PyVal)
    (h : keysNodup reg) : regLookup (regCleanup reg k) k = none := by
  induction reg with
  | nil => rfl
  | cons e rest ih =>
    unfold keysNodup at h
    simp only [List.map_cons, List.nodup_cons] at h
    by_cases he : e.1 = k
    · rw [regCleanup, if_pos he]
      exact not_mem_keys_lookup_none rest k (he ▸ h.1)
    · rw [regCleanup, if_neg he, regLookup_cons, if_neg he]
      exact ih h.2

lemma regLookup_regCleanup_other (reg : Registry) (k k2 : PyVal) (h : k2 ≠ k) :
    regLookup (regCleanup reg k) k2 = regLookup reg k2 := by
  induction reg with
  | nil => rfl
  | cons e rest ih =>
    by_cases he : e.1 = k
    · have hek : e.1 ≠ k2 := by rw [he]; exact fun hx => h hx.symm
      rw [regCleanup, if_pos he, regLookup_cons, if_neg hek]
    · rw [regCleanup, if_neg he, regLookup_cons, regLookup_cons, ih]

lemma regCleanup_not_contained (reg : Registry) (k : PyVal)
    (h : regContains reg k = false) : regCleanup reg k = reg := by
  induction reg with
  | nil => rfl
  | cons e rest ih =>
    simp only [regContains, List.any_cons, Bool.or_eq_false_iff,
      decide_eq_false_iff_not] at h
    rw [regCleanup, if_neg h.1, ih h.2]

end Chat

namespace Chat

/-- Claim C8: the presence registry holds at most one connection handle per
identity (the key-Nodup invariant is preserved by both mutations); a second
registration for the same identity silently replaces the first entry while
leaving other identities untouched; the close path removes the entry for the
session's identity unconditionally — also when a newer connection has since
replaced the handle — leaves other identities untouched, and is a no-op when
the identity is not registered. -/
theorem C8_presence_registry (reg : Registry) (k k2 : PyVal) (v : Nat)
    (hnd : keysNodup reg) (hne : k2 ≠ k) :
    keysNodup (regSet reg k v) ∧
    regLookup (regSet reg k v) k = some v ∧
    regLookup (regSet reg k v) k2 = regLookup reg k2 ∧
    keysNodup (regCleanup reg k) ∧
    regLookup (regCleanup reg k) k = none ∧
    regLookup (regCleanup (regSet reg k v) k) k = none ∧
    regLookup (regCleanup reg k) k2 = regLookup reg k2 ∧
    (regContains reg k = false → regCleanup reg k = reg) :=
  ⟨keysNodup_regSet reg k v hnd,
   regLookup_regSet_self reg k v,
   regLookup_regSet_other reg k k2 v hne,
   keysNodup_regCleanup reg k hnd,
   regLookup_regCleanup_self reg k hnd,
   regLookup_regCleanup_self (regSet reg k v) k (keysNodup_regSet reg k v hnd),
   regLookup_regCleanup_other reg k k2 hne,
   fun h => regCleanup_not_contained reg k h⟩

/-- Witness for C8 at a concrete one-entry registry. -/
theorem C8_presence_registry_witness :
    keysNodup (regSet [(PyVal.pstr "1", 1)] (PyVal.pstr "1") 7) ∧
    regLookup (regSet [(PyVal.pstr "1", 1)] (PyVal.pstr "1") 7) (PyVal.pstr "1") = some 7 ∧
    regLookup (regSet [(PyVal.pstr "1", 1)] (PyVal.pstr "1") 7) (PyVal.pstr "2") =
      regLookup [(PyVal.pstr "1", 1)] (PyVal.pstr "2") ∧
    keysNodup (regCleanup [(PyVal.pstr "1", 1)] (PyVal.pstr "1")) ∧
    regLookup (regCleanup [(PyVal.pstr "1", 1)] (PyVal.pstr "1")) (PyVal.pstr "1") = none ∧
    regLookup (regCleanup (regSet [(PyVal.pstr "1", 1)] (PyVal.pstr "1") 7) (PyVal.pstr "1"))
      (PyVal.pstr "1") = none ∧
    regLookup (regCleanup [(PyVal.pstr "1", 1)] (PyVal.pstr "1")) (PyVal.pstr "2") =
      regLookup [(PyVal.pstr "1", 1)] (PyVal.pstr "2") ∧
    (regContains [(PyVal.pstr "1", 1)] (PyVal.pstr "1") = false →
      regCleanup [(PyVal.pstr "1", 1)] (PyVal.pstr "1") = [(PyVal.pstr "1", 1)]) :=
  C8_presence_registry [(PyVal.pstr "1", 1)] (PyVal.pstr "1") (PyVal.pstr "2") 7
    (by simp [keysNodup]) (by decide)

/-- Claim C6: a live connection reaches the streaming state exactly when the
token decodes, its type claim is "access" and its subject is a non-empty
identity; on failure the socket is closed with the policy-violation code and
neither the registry nor the online flag is touched; on success the session
is registered under the subject and the subject is marked online. -/
theorem C6_ws_authentication (reg : Registry) (online : List String)
    (p : Option TokenPayload) (h : Nat) :
    ((wsConnect reg online p h).closedPolicyViolation = false ↔
      ∃ pl s, p = some pl ∧ pl.type = some "access" ∧ pl.sub = some s ∧ s ≠ "") ∧
    ((wsConnect reg online p h).closedPolicyViolation = true →
      (wsConnect reg online p h).registry = reg ∧
      (wsConnect reg online p h).online = online) ∧
    (∀ pl s, p = some pl → pl.sub = some s →
      (wsConnect reg online p h).closedPolicyViolation = false →
      regLookup (wsConnect reg online p h).registry (.pstr s) = some h ∧
      s ∈ (wsConnect reg online p h).online) := by
  match p with
  | none => simp [wsConnect]
  | some pl =>
    match htyp : pl.type with
    | none => simp [wsConnect, htyp]
    | some t =>
      by_cases ht : t = "access"
      · subst ht
        match hsub : pl.sub with
        | none => simp [wsConnect, htyp, hsub]
        | some s =>
          by_cases hs : s = ""
          · subst hs
            simp [wsConnect, htyp, hsub]
          · refine ⟨?_, ?_, ?_⟩
            · simp [wsConnect, htyp, hsub, hs]
            · simp [wsConnect, htyp, hsub, hs]
            · intro pl2 s2 hp2 hs2 _
              obtain rfl : pl2 = pl := by injection hp2 with hx; exact hx.symm
              obtain rfl : s2 = s := by
                rw [hsub] at hs2; injection hs2 with hx; exact hx.symm
              simp [wsConnect, htyp, hsub, hs, regLookup_regSet_self]
      · have : pl.type ≠ some "access" := by
          rw [htyp]; exact fun hx => ht (by injection hx)
        simp [wsConnect, this]

/-- Witness for C6 at a concrete valid payload. -/
theorem C6_ws_authentication_witness :
    ((wsConnect [] [] (some ⟨some "access", some "1"⟩) 1).closedPolicyViolation = false ↔
      ∃ pl s, (some (⟨some "access", some "1"⟩ : TokenPayload)) = some pl ∧
        pl.type = some "access" ∧ pl.sub = some s ∧ s ≠ "") ∧
    ((wsConnect [] [] (some ⟨some "access", some "1"⟩) 1).closedPolicyViolation = true →
      (wsConnect [] [] (some ⟨some "access", some "1"⟩) 1).registry = [] ∧
      (wsConnect [] [] (some ⟨some "access", some "1"⟩) 1).online = []) ∧
    (∀ pl s, (some (⟨some "access", some "1"⟩ : TokenPayload)) = some pl → pl.sub = some s →
      (wsConnect [] [] (some ⟨some "access", some "1"⟩) 1).closedPolicyViolation = false →
      regLookup (wsConnect [] [] (some ⟨some "access", some "1"⟩) 1).registry (.pstr s) = some 1 ∧
      s ∈ (wsConnect [] [] (some ⟨some "access", some "1"⟩) 1).online) :=
  C6_ws_authentication [] [] (some ⟨some "access", some "1"⟩) 1

/-- Claim C5 (code bug): with A authenticated from a token whose subject is
the string "1" and B from subject "2" — the only form the backend issues,
since create_access_token coerces sub with str — both sessions stream and
the registry is keyed by the strings "1" and "2"; a typing frame from A with
the numeric receiver_id 2 of the documented scenario finds no registry entry
and is dropped, so B receives nothing; the forward fires exactly on a frame
value equal to a registry key, e.g. the string "2". -/
theorem C5_typing_forward_at_failing_input :
    (wsConnect [] [] (some ⟨some "access", some "1"⟩) 1).closedPolicyViolation = false ∧
    (wsConnect
      (wsConnect [] [] (some ⟨some "access", some "1"⟩) 1).registry
      (wsConnect [] [] (some ⟨some "access", some "1"⟩) 1).online
      (some ⟨some "access", some "2"⟩) 2).closedPolicyViolation = false ∧
    (wsConnect
      (wsConnect [] [] (some ⟨some "access", some "1"⟩) 1).registry
      (wsConnect [] [] (some ⟨some "access", some "1"⟩) 1).online
      (some ⟨some "access", some "2"⟩) 2).registry =
      [(PyVal.pstr "1", 1), (PyVal.pstr "2", 2)] ∧
    handleTypingFrame [(PyVal.pstr "1", 1), (PyVal.pstr "2", 2)]
      (PyVal.pstr "1") (some (PyVal.pint 2)) = [] ∧
    handleTypingFrame [(PyVal.pstr "1", 1), (PyVal.pstr "2", 2)]
      (PyVal.pstr "1") (some (PyVal.pstr "2")) =
      [OutEvent.toConn 2 (OutFrame.typingFrame (PyVal.pstr "1"))] := by
  refine ⟨rfl, rfl, rfl, ?_, ?_⟩ <;> rfl

end Chat

namespace Chat

lemma nextId_gt (store : List (Message α)) : ∀ m ∈ store, m.id < nextId store := by
  intro m hm
  have hle : m.id ≤ (store.map Message.id).foldr max 0 := by
    induction store with
    | nil => cases hm
    | cons x rest ih =>
      rcases List.mem_cons.1 hm with rfl | hmem
      · exact le_max_left _ _
      · exact le_trans (ih hmem) (le_max_right _ _)
  exact Nat.lt_succ_of_le hle

lemma handleMessageFrame_drop (store : List (Message PyVal)) (reg : Registry)
    (u : PyVal) (rid? : Option PyVal) (c? : Option (List Char)) (now : Nat)
    (h : optFalsy rid? = true ∨ c? = none ∨ c? = some []) :
    handleMessageFrame store reg u rid? c? now = (store, []) := by
  match rid?, c? with
  | none, none => rfl
  | none, some c => rfl
  | some rid, none => rfl
  | some rid, some c =>
    have hcond : rid.falsy = true ∨ c = [] := by
      rcases h with h1 | h2 | h3
      · exact Or.inl (by simpa [optFalsy] using h1)
      · cases h2
      · exact Or.inr (by injection h3)
    simp only [handleMessageFrame]
    rw [if_pos hcond]

lemma handleMessageFrame_ok (store : List (Message PyVal)) (reg : Registry)
    (u rid : PyVal) (c : List Char) (now : Nat)
    (hr : rid.falsy = false) (hc : c ≠ []) :
    handleMessageFrame store reg u (some rid) (some c) now =
      (store ++ [⟨nextId store, c, u, rid, false, none, now⟩],
       (match regLookup reg rid with
        | some h => [OutEvent.toConn h (.messageFrame (nextId store) c u now)]
        | none => []) ++ [OutEvent.toSelf (.sentAck (nextId store) rid)]) := by
  have hcond : ¬ (rid.falsy = true ∨ c = []) := by
    rintro (h1 | h2)
    · rw [hr] at h1; cases h1
    · exact hc h2
  simp only [handleMessageFrame]
  rw [if_neg hcond]

/-- Claim C1 (amended): a message frame is silently dropped — no store
change, no frame emitted — when receiver_id or content is missing or
falsy (zero / empty); otherwise one new unread message carrying the
given content, the session identity as sender and the frame value as
receiver is persisted with a fresh id, then a live forward is attempted
(emitting nothing when the receiver value has no registry entry), and
the sent acknowledgment with the new id and the receiver value is
emitted last to the originating session. -/
theorem C1_message_frame_semantics (store : List (Message PyVal)) (reg : Registry)
    (u : PyVal) (rid? : Option PyVal) (c? : Option (List Char)) (now : Nat) :
    (optFalsy rid? = true ∨ c? = none ∨ c? = some [] →
      handleMessageFrame store reg u rid? c? now = (store, [])) ∧
    (∀ r c, rid? = some r → c? = some c → r.falsy = false → c ≠ [] →
      ∃ m, (handleMessageFrame store reg u rid? c? now).1 = store ++ [m] ∧
        m.content = c ∧ m.sender_id = u ∧ m.receiver_id = r ∧
        m.is_read = false ∧ m.read_at = none ∧ m.created_at = now ∧
        (∀ x ∈ store, x.id < m.id) ∧
        (regLookup reg r = none →
          (handleMessageFrame store reg u rid? c? now).2 =
            [OutEvent.toSelf (.sentAck m.id r)]) ∧
        (∀ h, regLookup reg r = some h →
          (handleMessageFrame store reg u rid? c? now).2 =
            [OutEvent.toConn h (.messageFrame m.id c u now),
             OutEvent.toSelf (.sentAck m.id r)])) := by
  constructor
  · exact handleMessageFrame_drop store reg u rid? c? now
  · rintro r c rfl rfl hr hc
    refine ⟨⟨nextId store, c, u, r, false, none, now⟩, ?_, rfl, rfl, rfl, rfl, rfl, rfl,
      nextId_gt store, ?_, ?_⟩
    · rw [handleMessageFrame_ok store reg u r c now hr hc]
    · intro hnone
      rw [handleMessageFrame_ok store reg u r c now hr hc]
      simp [hnone]
    · intro h hsome
      rw [handleMessageFrame_ok store reg u r c now hr hc]
      simp [hsome]

/-- Witness for C1 at a concrete frame. -/
theorem C1_message_frame_semantics_witness :
    ∃ m, (handleMessageFrame [] [] (PyVal.pstr "1") (some (PyVal.pint 2))
        (some ['h', 'i']) 5).1 = [] ++ [m] ∧
      m.content = ['h', 'i'] ∧ m.sender_id = PyVal.pstr "1" ∧
      m.receiver_id = PyVal.pint 2 ∧ m.is_read = false ∧ m.read_at = none ∧
      m.created_at = 5 ∧ (∀ x ∈ ([] : List (Message PyVal)), x.id < m.id) ∧
      (regLookup [] (PyVal.pint 2) = none →
        (handleMessageFrame [] [] (PyVal.pstr "1") (some (PyVal.pint 2))
          (some ['h', 'i']) 5).2 = [OutEvent.toSelf (.sentAck m.id (PyVal.pint 2))]) ∧
      (∀ h, regLookup [] (PyVal.pint 2) = some h →
        (handleMessageFrame [] [] (PyVal.pstr "1") (some (PyVal.pint 2))
          (some ['h', 'i']) 5).2 =
          [OutEvent.toConn h (.messageFrame m.id ['h', 'i'] (PyVal.pstr "1") 5),
           OutEvent.toSelf (.sentAck m.id (PyVal.pint 2))]) :=
  (C1_message_frame_semantics [] [] (PyVal.pstr "1") (some (PyVal.pint 2))
    (some ['h', 'i']) 5).2 (PyVal.pint 2) ['h', 'i'] rfl rfl (by decide) (by decide)

/-- Counterexample to C1 as stated: a frame whose receiver_id and content
are both present (receiver_id 2, content the empty string) is dropped with
no persistence and no acknowledgment, where the claim's "otherwise" branch
demands that the message be persisted and acknowledged. -/
theorem C1_counterexample :
    (some (PyVal.pint 2)).isSome = true ∧ (some ([] : List Char)).isSome = true ∧
    handleMessageFrame [] [] (PyVal.pstr "1") (some (PyVal.pint 2)) (some []) 5 = ([], []) ∧
    ¬ ∃ m, (handleMessageFrame [] [] (PyVal.pstr "1") (some (PyVal.pint 2))
        (some []) 5).1 = [] ++ [m] := by
  refine ⟨rfl, rfl, rfl, ?_⟩
  rintro ⟨m, hm⟩
  simp [handleMessageFrame] at hm

/-- Claim C9: the live-socket send path does not enforce sender ≠ receiver:
an authenticated session u sending a message frame whose receiver_id equals
its own identity gets the message persisted (sender = receiver = u) and the
sent acknowledgment, while the REST path rejects the same self-send with
400 "Cannot send message to yourself" and persists nothing. -/
theorem C9_self_send_not_enforced_on_socket (store : List (Message PyVal))
    (reg : Registry) (users : List UserRow) (rstore : List (Message Int))
    (rreg : Registry) (u : PyVal) (c : List Char) (uid : Int) (fok : Bool)
    (now now2 : Nat) (hu : u.falsy = false) (hc : c ≠ [])
    (huser : userExists users uid = true) :
    (∃ m pre, (handleMessageFrame store reg u (some u) (some c) now).1 = store ++ [m] ∧
      m.sender_id = u ∧ m.receiver_id = u ∧ m.content = c ∧
      (handleMessageFrame store reg u (some u) (some c) now).2 =
        pre ++ [OutEvent.toSelf (.sentAck m.id u)]) ∧
    sendMessageRest users rstore rreg uid uid c fok now2 =
      (rstore, .error ⟨400, "Cannot send message to yourself"⟩, []) := by
  constructor
  · refine ⟨⟨nextId store, c, u, u, false, none, now⟩,
      (match regLookup reg u with
       | some h => [OutEvent.toConn h (.messageFrame (nextId store) c u now)]
       | none => []), ?_, rfl, rfl, rfl, ?_⟩
    · rw [handleMessageFrame_ok store reg u u c now hu hc]
    · rw [handleMessageFrame_ok store reg u u c now hu hc]
  · simp [sendMessageRest, huser]

/-- Witness for C9 with identity "1" on the socket and user id 1 on REST. -/
theorem C9_self_send_not_enforced_on_socket_witness :
    (∃ m pre, (handleMessageFrame [] [] (PyVal.pstr "1") (some (PyVal.pstr "1"))
        (some ['h']) 3).1 = [] ++ [m] ∧
      m.sender_id = PyVal.pstr "1" ∧ m.receiver_id = PyVal.pstr "1" ∧ m.content = ['h'] ∧
      (handleMessageFrame [] [] (PyVal.pstr "1") (some (PyVal.pstr "1"))
        (some ['h']) 3).2 = pre ++ [OutEvent.toSelf (.sentAck m.id (PyVal.pstr "1"))]) ∧
    sendMessageRest demoUsers [] [] 1 1 ['h'] true 4 =
      ([], .error ⟨400, "Cannot send message to yourself"⟩, []) :=
  C9_self_send_not_enforced_on_socket [] [] demoUsers [] [] (PyVal.pstr "1") ['h'] 1 true 3 4
    (by decide) (by decide) (by decide)

lemma handleReadFrame_found (store : List (Message PyVal)) (reg : Registry)
    (u v : PyVal) (now : Nat) (m : Message PyVal) (hf : v.falsy = false)
    (hfind : store.find? (fun x => idMatches x.id v && decide (x.receiver_id = u)) = some m) :
    (handleReadFrame store reg u (some v) now).1 = store.map (fun x =>
      if idMatches x.id v && decide (x.receiver_id = u) then
        { x with is_read := true, read_at := some now }
      else x) := by
  simp only [handleReadFrame]
  rw [if_neg (by simp [hf]), hfind]

/-- Claim C7 (amended): re-fetching an already-read message through
getHistory leaves it untouched (only unread rows are stamped), but a second
read frame from the receiver re-stamps read_at with the current time — the
handler re-checks only existence and ownership, not the read flag. -/
theorem C7_read_marking_amended :
    (∀ (store : List (Message PyVal)) (reg : Registry) (u v : PyVal) (now : Nat)
        (m : Message PyVal), v.falsy = false →
      store.find? (fun x => idMatches x.id v && decide (x.receiver_id = u)) = some m →
      ∀ x ∈ (handleReadFrame store reg u (some v) now).1,
        (idMatches x.id v && decide (x.receiver_id = u)) = true → x.read_at = some now) ∧
    (∀ (users : List UserRow) (store st2 : List (Message Int)) (viewer o : Int)
        (skip limit now : Nat) (pg : List (Message Int)),
      getHistory users store viewer o skip limit now = (st2, .ok pg) →
      ∀ m ∈ store, m.is_read = true → m ∈ st2) := by
  constructor
  · intro store reg u v now m hf hfind x hx hcond
    rw [handleReadFrame_found store reg u v now m hf hfind] at hx
    obtain ⟨orig, horig, rfl⟩ := List.mem_map.1 hx
    by_cases hco : (idMatches orig.id v && decide (orig.receiver_id = u)) = true
    · rw [if_pos hco]
    · rw [if_neg hco] at hcond ⊢
      exact absurd hcond hco
  · intro users store st2 viewer o skip limit now pg heq m hm hread
    by_cases hu : userExists users o = true
    · have hcond : ¬ ¬ (userExists users o = true) := by simp [hu]
      simp only [getHistory] at heq
      rw [if_neg hcond] at heq
      rw [Prod.mk.injEq] at heq
      rw [← heq.1]
      refine List.mem_map.2 ⟨m, hm, ?_⟩
      rw [if_neg ?_]
      simp [markedByHistory, hread]
    · have hcond : ¬ (userExists users o = true) := hu
      simp only [getHistory] at heq
      rw [if_pos hcond] at heq
      rw [Prod.mk.injEq] at heq
      exact absurd heq.2 (by simp)

end Chat

namespace Chat

/-- Witness for the amended C7: a read frame at time 20 on an
already-read message, and a getHistory pass over an already-read store. -/
theorem C7_read_marking_amended_witness :
    (∀ x ∈ (handleReadFrame [⟨1, ['h'], PyVal.pstr "2", PyVal.pstr "1", true, some 10, 0⟩]
        [] (PyVal.pstr "1") (some (PyVal.pint 1)) 20).1,
      (idMatches x.id (PyVal.pint 1) && decide (x.receiver_id = PyVal.pstr "1")) = true →
      x.read_at = some 20) ∧
    (∀ m ∈ [(⟨1, ['h'], 2, 1, true, some 7, 0⟩ : Message Int)], m.is_read = true →
      m ∈ [(⟨1, ['h'], 2, 1, true, some 7, 0⟩ : Message Int)]) :=
  ⟨C7_read_marking_amended.1 [⟨1, ['h'], PyVal.pstr "2", PyVal.pstr "1", true, some 10, 0⟩]
      [] (PyVal.pstr "1") (PyVal.pint 1) 20
      ⟨1, ['h'], PyVal.pstr "2", PyVal.pstr "1", true, some 10, 0⟩ (by decide) (by decide),
   C7_read_marking_amended.2 demoUsers [⟨1, ['h'], 2, 1, true, some 7, 0⟩]
      [⟨1, ['h'], 2, 1, true, some 7, 0⟩] 1 2 0 50 9
      [⟨1, ['h'], 2, 1, true, some 7, 0⟩] (by rfl)⟩

/-- Counterexample to C7 as stated: a message already read at time 10,
on a second read frame from its receiver at time 20, gets its read
timestamp re-stamped to 20 — the claim says it stays unchanged. -/
theorem C7_counterexample :
    (⟨1, ['h', 'i'], PyVal.pstr "2", PyVal.pstr "1", true, some 10, 0⟩ :
      Message PyVal).read_at = some 10 ∧
    (handleReadFrame [⟨1, ['h', 'i'], PyVal.pstr "2", PyVal.pstr "1", true, some 10, 0⟩]
        [] (PyVal.pstr "1") (some (PyVal.pint 1)) 20).1.map (fun m => m.read_at) =
      [some 20] ∧
    (some 20 : Option Nat) ≠ some 10 := by
  refine ⟨rfl, rfl, by decide⟩

/-- Claim C2: REST send returns 404 and persists nothing when the receiver
does not exist; returns 400 "Cannot send message to yourself" and persists
nothing on a self-send; otherwise persists exactly one new unread message
with a fresh id and returns it, and the returned store and message are the
same whether or not the best-effort live forward succeeds. -/
theorem C2_send_message_rest (users : List UserRow) (store : List (Message Int))
    (reg : Registry) (sid rid : Int) (c : List Char) (fok : Bool) (now : Nat) :
    (userExists users rid = false →
      sendMessageRest users store reg sid rid c fok now =
        (store, .error ⟨404, "Receiver not found"⟩, [])) ∧
    (userExists users rid = true → rid = sid →
      sendMessageRest users store reg sid rid c fok now =
        (store, .error ⟨400, "Cannot send message to yourself"⟩, [])) ∧
    (userExists users rid = true → rid ≠ sid →
      ∃ m, (sendMessageRest users store reg sid rid c fok now).1 = store ++ [m] ∧
        (sendMessageRest users store reg sid rid c fok now).2.1 = .ok m ∧
        m.sender_id = sid ∧ m.receiver_id = rid ∧ m.content = c ∧ m.created_at = now ∧
        m.is_read = false ∧ m.read_at = none ∧ (∀ x ∈ store, x.id < m.id) ∧
        (∀ fok2, (sendMessageRest users store reg sid rid c fok2 now).1 = store ++ [m] ∧
          (sendMessageRest users store reg sid rid c fok2 now).2.1 = .ok m)) := by
  refine ⟨?_, ?_, ?_⟩
  · intro h
    simp [sendMessageRest, h]
  · intro h he
    subst he
    simp [sendMessageRest, h]
  · intro h hne
    refine ⟨⟨nextId store, c, sid, rid, false, none, now⟩, ?_, ?_, rfl, rfl, rfl, rfl,
      rfl, rfl, nextId_gt store, fun fok2 => ⟨?_, ?_⟩⟩ <;>
      simp [sendMessageRest, h, hne]

/-- Witness for C2: user 3 unknown, self-send by user 1, then a normal
send from 1 to 2, via the three branches of the theorem. -/
theorem C2_send_message_rest_witness :
    sendMessageRest demoUsers [] [] 1 3 ['h'] true 0 =
      ([], .error ⟨404, "Receiver not found"⟩, []) ∧
    sendMessageRest demoUsers [] [] 1 1 ['h'] true 0 =
      ([], .error ⟨400, "Cannot send message to yourself"⟩, []) ∧
    ∃ m, (sendMessageRest demoUsers [] [] 1 2 ['h'] true 0).1 = [] ++ [m] ∧
      (sendMessageRest demoUsers [] [] 1 2 ['h'] true 0).2.1 = .ok m ∧
      m.sender_id = 1 ∧ m.receiver_id = 2 ∧ m.content = ['h'] ∧ m.created_at = 0 ∧
      m.is_read = false ∧ m.read_at = none ∧
      (∀ x ∈ ([] : List (Message Int)), x.id < m.id) ∧
      (∀ fok2, (sendMessageRest demoUsers [] [] 1 2 ['h'] fok2 0).1 = [] ++ [m] ∧
        (sendMessageRest demoUsers [] [] 1 2 ['h'] fok2 0).2.1 = .ok m) :=
  ⟨(C2_send_message_rest demoUsers [] [] 1 3 ['h'] true 0).1 (by decide),
   (C2_send_message_rest demoUsers [] [] 1 1 ['h'] true 0).2.1 (by decide) rfl,
   (C2_send_message_rest demoUsers [] [] 1 2 ['h'] true 0).2.2 (by decide) (by decide)⟩

end Chat

namespace Chat

/-- The mark-as-read mutation applied to fetched rows. -/
def markRead (viewer : Int) (now : Nat) (m : Message Int) : Message Int :=
  if decide (m.receiver_id = viewer) && ! m.is_read then
    { m with is_read := true, read_at := some now }
  else m

lemma markRead_id (viewer : Int) (now : Nat) (m : Message Int) :
    (markRead viewer now m).id = m.id := by
  unfold markRead; split <;> rfl

lemma markRead_receiver (viewer : Int) (now : Nat) (m : Message Int) :
    (markRead viewer now m).receiver_id = m.receiver_id := by
  unfold markRead; split <;> rfl

lemma markRead_created (viewer : Int) (now : Nat) (m : Message Int) :
    (markRead viewer now m).created_at = m.created_at := by
  unfold markRead; split <;> rfl

lemma getHistory_known (users : List UserRow) (store : List (Message Int))
    (viewer o : Int) (skip limit now : Nat) (hu : userExists users o = true) :
    getHistory users store viewer o skip limit now =
      (store.map (fun m =>
        if markedByHistory viewer
            ((((store.filter (betweenPair viewer o)).insertionSort msgRecencyGe).drop skip).take limit) m then
          { m with is_read := true, read_at := some now }
        else m),
       .ok (((((store.filter (betweenPair viewer o)).insertionSort msgRecencyGe).drop skip).take limit).map
          (markRead viewer now)).reverse) := by
  have hcond : ¬ ¬ (userExists users o = true) := by simp [hu]
  simp only [getHistory]
  rw [if_neg hcond]
  rfl

lemma mem_fetched (store : List (Message Int)) (viewer o : Int) (skip limit : Nat)
    (m : Message Int)
    (hm : m ∈ (((store.filter (betweenPair viewer o)).insertionSort msgRecencyGe).drop skip).take limit) :
    m ∈ store ∧ betweenPair viewer o m = true := by
  have h1 : m ∈ (store.filter (betweenPair viewer o)).insertionSort msgRecencyGe :=
    List.mem_of_mem_drop (List.mem_of_mem_take hm)
  have h2 : m ∈ store.filter (betweenPair viewer o) :=
    (List.perm_insertionSort msgRecencyGe _).mem_iff.1 h1
  exact ⟨(List.mem_filter.1 h2).1, (List.mem_filter.1 h2).2⟩

lemma fetched_sorted (store : List (Message Int)) (viewer o : Int) (skip limit : Nat) :
    ((((store.filter (betweenPair viewer o)).insertionSort msgRecencyGe).drop skip).take limit).Pairwise
      msgRecencyGe := by
  have hs : ((store.filter (betweenPair viewer o)).insertionSort msgRecencyGe).Pairwise msgRecencyGe :=
    List.sorted_insertionSort msgRecencyGe _
  exact List.Pairwise.sublist ((List.take_sublist _ _).trans (List.drop_sublist _ _)) hs

/-- Claim C3: getHistory 404s and changes nothing when the counterpart is
unknown; otherwise it selects the bidirectional set newest-first, applies
skip/limit, returns the page oldest-first with every page message addressed
to the viewer read and stamped, stamps the fetched messages addressed to
the viewer in the store, and leaves every other row unchanged; on the
concrete 51-message conversation with skip=0, limit=50 it returns the 50
most recent in chronological order and marks exactly the fetched messages
addressed to the viewer. -/
theorem C3_get_history (users : List UserRow) (store : List (Message Int))
    (viewer o : Int) (skip limit now : Nat)
    (hra : ∀ m ∈ store, m.is_read = true → m.read_at.isSome = true) :
    (userExists users o = false →
      getHistory users store viewer o skip limit now =
        (store, .error ⟨404, "User not found"⟩)) ∧
    (∀ st2 pg, getHistory users store viewer o skip limit now = (st2, .ok pg) →
      pg.length = min limit ((store.filter (betweenPair viewer o)).length - skip) ∧
      pg.Pairwise (fun a b => a.created_at ≤ b.created_at) ∧
      (∀ m ∈ pg, m.receiver_id = viewer → m.is_read = true ∧ m.read_at.isSome = true) ∧
      (∀ m ∈ pg, ∃ m0 ∈ store, m0.id = m.id ∧ betweenPair viewer o m0 = true) ∧
      (∀ m0 ∈ store, (∃ f ∈ pg, f.id = m0.id) → m0.receiver_id = viewer →
        ∃ x ∈ st2, x.id = m0.id ∧ x.is_read = true ∧ x.read_at.isSome = true) ∧
      (∀ m0 ∈ store, ((¬ ∃ f ∈ pg, f.id = m0.id) ∨ m0.receiver_id ≠ viewer ∨
        m0.is_read = true) → m0 ∈ st2)) ∧
    ((getHistory demoUsers store51 1 2 0 50 99).2.map
        (fun l => l.map (fun m => m.created_at)) =
      Except.ok ((List.range 50).map (fun i => i + 1)) ∧
     ((getHistory demoUsers store51 1 2 0 50 99).1.filter
        (fun m => m.is_read)).map (fun m => m.created_at) =
      (List.range 25).map (fun i => 2 * i + 2)) := by
  refine ⟨?_, ?_, by decide, by decide⟩
  · intro h
    simp only [getHistory]
    rw [if_pos (by simp [h])]
  · intro st2 pg heq
    by_cases hu : userExists users o = true
    · rw [getHistory_known users store viewer o skip limit now hu, Prod.mk.injEq] at heq
      obtain ⟨hst2, hpg⟩ := heq
      have hpg2 : pg = (((((store.filter (betweenPair viewer o)).insertionSort
          msgRecencyGe).drop skip).take limit).map (markRead viewer now)).reverse := by
        injection hpg with hx; exact hx.symm
      subst hpg2
      set fetched := (((store.filter (betweenPair viewer o)).insertionSort
        msgRecencyGe).drop skip).take limit with hfetched
      refine ⟨?_, ?_, ?_, ?_, ?_, ?_⟩
      · -- length
        simp only [List.length_reverse, List.length_map, hfetched, List.length_take,
          List.length_drop]
        rw [(List.perm_insertionSort msgRecencyGe (store.filter (betweenPair viewer o))).length_eq]
      · -- chronological order
        rw [List.pairwise_reverse, List.pairwise_map]
        have hs := fetched_sorted store viewer o skip limit
        rw [← hfetched] at hs
        exact hs.imp (fun {a b} h => by
          simpa [markRead_created] using h)
      · -- every page message addressed to the viewer is read and stamped
        intro m hm hrecv
        rw [List.mem_reverse] at hm
        obtain ⟨f, hf, rfl⟩ := List.mem_map.1 hm
        by_cases hc : (decide (f.receiver_id = viewer) && ! f.is_read) = true
        · unfold markRead
          rw [if_pos hc]
          exact ⟨rfl, rfl⟩
        · have hmr : markRead viewer now f = f := by unfold markRead; rw [if_neg hc]
          rw [hmr] at hrecv ⊢
          have hread : f.is_read = true := by
            cases hfr : f.is_read
            · exact absurd (by simp [hrecv, hfr]) hc
            · rfl
          exact ⟨hread, hra f (mem_fetched store viewer o skip limit f
            (hfetched ▸ hf)).1 hread⟩
      · -- page rows come from store rows of the pair
        intro m hm
        rw [List.mem_reverse] at hm
        obtain ⟨f, hf, rfl⟩ := List.mem_map.1 hm
        have h2 := mem_fetched store viewer o skip limit f (hfetched ▸ hf)
        exact ⟨f, h2.1, (markRead_id viewer now f).symm, h2.2⟩
      · -- store side: fetched rows addressed to the viewer end up read+stamped
        intro m0 hm0 hpg3 hrecv
        by_cases hc : markedByHistory viewer fetched m0 = true
        · refine ⟨{ m0 with is_read := true, read_at := some now }, ?_, rfl, rfl, rfl⟩
          rw [← hst2]
          exact List.mem_map.2 ⟨m0, hm0, by rw [if_pos hc]⟩
        · obtain ⟨f, hfpg, hfid⟩ := hpg3
          rw [List.mem_reverse] at hfpg
          obtain ⟨f0, hf0, rfl⟩ := List.mem_map.1 hfpg
          rw [markRead_id] at hfid
          have hany : fetched.any (fun f => decide (f.id = m0.id)) = true := by
            rw [List.any_eq_true]
            exact ⟨f0, hf0, by simp [hfid]⟩
          have hread : m0.is_read = true := by
            cases hfr : m0.is_read
            · exact absurd (by
                unfold markedByHistory
                simp [hany, hrecv, hfr]) hc
            · rfl
          refine ⟨m0, ?_, rfl, hread, hra m0 hm0 hread⟩
          rw [← hst2]
          exact List.mem_map.2 ⟨m0, hm0, by rw [if_neg hc]⟩
      · -- untouched rows
        intro m0 hm0 hcase
        have hc : ¬ markedByHistory viewer fetched m0 = true := by
          unfold markedByHistory
          rcases hcase with h1 | h2 | h3
          · have hany : fetched.any (fun f => decide (f.id = m0.id)) = false := by
              rw [List.any_eq_false]
              intro f hf
              simp only [decide_eq_true_eq]
              intro hxx
              exact h1 ⟨markRead viewer now f,
                by rw [List.mem_reverse]; exact List.mem_map.2 ⟨f, hf, rfl⟩,
                by rw [markRead_id]; exact hxx⟩
            simp [hany]
          · simp [h2]
          · simp [h3]
        rw [← hst2]
        exact List.mem_map.2 ⟨m0, hm0, by rw [if_neg hc]⟩
    · rw [getHistory] at heq
      rw [if_pos (by simpa using hu)] at heq
      rw [Prod.mk.injEq] at heq
      exact absurd heq.2 (by simp)

end Chat

namespace Chat

lemma buildConvs_mono (users : List UserRow) (store : List (Message Int)) (v : Int) :
    ∀ (L : List (Message Int)) (acc : List ConversationSummary)
      (t : ConversationSummary), t ∈ acc →
      t ∈ buildConversations users store v L acc := by
  intro L
  induction L with
  | nil => intro acc t ht; simpa [buildConversations] using ht
  | cons m rest ih =>
    intro acc t ht
    simp only [buildConversations]
    by_cases hany : acc.any (fun s => decide (s.user_id = counterpartOf v m)) = true
    · rw [if_pos hany]
      exact ih acc t ht
    · rw [if_neg hany]
      rcases hfind : users.find? (fun u => decide (u.id = counterpartOf v m)) with _ | u
      · rw [hfind]
        exact ih acc t ht
      · rw [hfind]
        exact ih _ t (List.mem_append_left _ ht)

lemma buildConvs_spec (users : List UserRow) (store : List (Message Int)) (v : Int) :
    ∀ (L : List (Message Int)) (acc : List ConversationSummary),
      L.Pairwise msgRecencyGe →
      ∀ s ∈ buildConversations users store v L acc,
        s ∈ acc ∨
        ((∀ t ∈ acc, t.user_id ≠ s.user_id) ∧
         (∃ u, u ∈ users ∧ u.id = s.user_id ∧ s.username = u.username ∧
            s.profile_picture = u.profile_picture) ∧
         s.unread_count = unreadFrom store v s.user_id ∧
         ∃ m, m ∈ L ∧ counterpartOf v m = s.user_id ∧
           s.last_message = m.content.take 50 ∧ s.last_message_time = m.created_at ∧
           ∀ m2 ∈ L, counterpartOf v m2 = s.user_id → m2.created_at ≤ m.created_at) := by
  intro L
  induction L with
  | nil =>
    intro acc _ s hs
    left
    simpa [buildConversations] using hs
  | cons m rest ih =>
    intro acc hsorted s hs
    obtain ⟨hhead, htail⟩ := List.pairwise_cons.1 hsorted
    simp only [buildConversations] at hs
    by_cases hany : acc.any (fun t => decide (t.user_id = counterpartOf v m)) = true
    · rw [if_pos hany] at hs
      rcases ih acc htail s hs with hl | ⟨hne, hu, hcount, m1, hm1, hcp, hlm, hlt, hmax⟩
      · exact Or.inl hl
      · refine Or.inr ⟨hne, hu, hcount, m1, List.mem_cons_of_mem m hm1, hcp, hlm, hlt, ?_⟩
        intro m2 hm2 hcp2
        rcases List.mem_cons.1 hm2 with rfl | hm2r
        · obtain ⟨t, ht, htc⟩ := List.any_eq_true.1 hany
          rw [decide_eq_true_eq] at htc
          exact absurd (htc.trans hcp2) (hne t ht)
        · exact hmax m2 hm2r hcp2
    · rw [if_neg hany] at hs
      rcases hfind : users.find? (fun u => decide (u.id = counterpartOf v m)) with _ | u
      · rw [hfind] at hs
        rcases ih acc htail s hs with hl | ⟨hne, hu, hcount, m1, hm1, hcp, hlm, hlt, hmax⟩
        · exact Or.inl hl
        · refine Or.inr ⟨hne, hu, hcount, m1, List.mem_cons_of_mem m hm1, hcp, hlm, hlt, ?_⟩
          intro m2 hm2 hcp2
          rcases List.mem_cons.1 hm2 with rfl | hm2r
          · obtain ⟨u0, hu0, hu0id, _, _⟩ := hu
            have := List.find?_eq_none.1 hfind u0 hu0
            rw [decide_eq_true_eq] at this
            exact absurd (hu0id.trans hcp2.symm) this
          · exact hmax m2 hm2r hcp2
      · rw [hfind] at hs
        have humem : u ∈ users := List.mem_of_find?_eq_some hfind
        have huid : u.id = counterpartOf v m := by
          have := List.find?_some hfind
          rwa [decide_eq_true_eq] at this
        rcases ih _ htail s hs with hl | ⟨hne, hu2, hcount, m1, hm1, hcp, hlm, hlt, hmax⟩
        · rcases List.mem_append.1 hl with hacc | hsnew
          · exact Or.inl hacc
          · have hs_eq : s = ⟨u.id, u.username, u.profile_picture, m.content.take 50,
                m.created_at, unreadFrom store v (counterpartOf v m)⟩ := by
              simpa using hsnew
            subst hs_eq
            refine Or.inr ⟨?_, ⟨u, humem, rfl, rfl, rfl⟩, ?_, m, List.mem_cons_self m rest,
              huid.symm, rfl, rfl, ?_⟩
            · intro t ht
              have := List.any_eq_false.1 (Bool.not_eq_true _ ▸ hany) t ht
              rw [decide_eq_true_eq] at this
              simpa [huid] using this
            · simp only [huid]
            · intro m2 hm2 hcp2
              rcases List.mem_cons.1 hm2 with rfl | hm2r
              · exact le_refl _
              · exact hhead m2 hm2r
        · refine Or.inr ⟨fun t ht => hne t (List.mem_append_left _ ht), hu2, hcount,
            m1, List.mem_cons_of_mem m hm1, hcp, hlm, hlt, ?_⟩
          intro m2 hm2 hcp2
          rcases List.mem_cons.1 hm2 with rfl | hm2r
          · have hsnew_ne := hne ⟨u.id, u.username, u.profile_picture,
              m2.content.take 50, m2.created_at, unreadFrom store v (counterpartOf v m2)⟩
              (List.mem_append_right _ (List.mem_singleton_self _))
            exact absurd (huid.trans hcp2) hsnew_ne
          · exact hmax m2 hm2r hcp2

lemma buildConvs_sorted (users : List UserRow) (store : List (Message Int)) (v : Int) :
    ∀ (L : List (Message Int)) (acc : List ConversationSummary),
      L.Pairwise msgRecencyGe →
      acc.Pairwise (fun a b => b.last_message_time ≤ a.last_message_time) →
      (∀ s ∈ acc, ∀ m ∈ L, m.created_at ≤ s.last_message_time) →
      (buildConversations users store v L acc).Pairwise
        (fun a b => b.last_message_time ≤ a.last_message_time) := by
  intro L
  induction L with
  | nil =>
    intro acc _ hacc _
    simpa [buildConversations] using hacc
  | cons m rest ih =>
    intro acc hsorted hacc hinv
    obtain ⟨hhead, htail⟩ := List.pairwise_cons.1 hsorted
    simp only [buildConversations]
    by_cases hany : acc.any (fun s => decide (s.user_id = counterpartOf v m)) = true
    · rw [if_pos hany]
      exact ih acc htail hacc
        (fun s hss m2 hm2 => hinv s hss m2 (List.mem_cons_of_mem m hm2))
    · rw [if_neg hany]
      rcases hfind : users.find? (fun u => decide (u.id = counterpartOf v m)) with _ | u
      · rw [hfind]
        exact ih acc htail hacc
          (fun s hss m2 hm2 => hinv s hss m2 (List.mem_cons_of_mem m hm2))
      · rw [hfind]
        refine ih _ htail ?_ ?_
        · rw [List.pairwise_append]
          refine ⟨hacc, List.pairwise_singleton _ _, ?_⟩
          intro a ha b hb
          rw [List.mem_singleton] at hb
          subst hb
          exact hinv a ha m (List.mem_cons_self m rest)
        · intro s hss m2 hm2
          rcases List.mem_append.1 hss with hsa | hsn
          · exact hinv s hsa m2 (List.mem_cons_of_mem m hm2)
          · rw [List.mem_singleton] at hsn
            subst hsn
            exact hhead m2 hm2

lemma buildConvs_keys_nodup (users : List UserRow) (store : List (Message Int)) (v : Int) :
    ∀ (L : List (Message Int)) (acc : List ConversationSummary),
      ((acc.map (fun s => s.user_id)).Nodup) →
      (((buildConversations users store v L acc).map (fun s => s.user_id)).Nodup) := by
  intro L
  induction L with
  | nil =>
    intro acc hacc
    simpa [buildConversations] using hacc
  | cons m rest ih =>
    intro acc hacc
    simp only [buildConversations]
    by_cases hany : acc.any (fun s => decide (s.user_id = counterpartOf v m)) = true
    · rw [if_pos hany]
      exact ih acc hacc
    · rw [if_neg hany]
      rcases hfind : users.find? (fun u => decide (u.id = counterpartOf v m)) with _ | u
      · rw [hfind]
        exact ih acc hacc
      · rw [hfind]
        refine ih _ ?_
        have huid : u.id = counterpartOf v m := by
          have := List.find?_some hfind
          rwa [decide_eq_true_eq] at this
        rw [List.map_append]
        simp only [List.map_cons, List.map_nil]
        rw [List.nodup_append]
        refine ⟨hacc, List.nodup_singleton _, ?_⟩
        intro a ha hb
        rw [List.mem_singleton] at hb
        subst hb
        obtain ⟨t, ht, hteq⟩ := List.mem_map.1 ha
        have := List.any_eq_false.1 (Bool.not_eq_true _ ▸ hany) t ht
        rw [decide_eq_true_eq] at this
        exact this (hteq.trans huid)

lemma buildConvs_complete (users : List UserRow) (store : List (Message Int)) (v : Int) :
    ∀ (L : List (Message Int)) (acc : List ConversationSummary) (c : Int),
      (users.find? (fun u => decide (u.id = c))).isSome = true →
      ((∃ t ∈ acc, t.user_id = c) ∨ (∃ m ∈ L, counterpartOf v m = c)) →
      ∃ s ∈ buildConversations users store v L acc, s.user_id = c := by
  intro L
  induction L with
  | nil =>
    intro acc c _ hcase
    rcases hcase with ⟨t, ht, htc⟩ | ⟨m, hm, _⟩
    · exact ⟨t, by simpa [buildConversations] using ht, htc⟩
    · cases hm
  | cons m rest ih =>
    intro acc c hfindc hcase
    simp only [buildConversations]
    by_cases hany : acc.any (fun s => decide (s.user_id = counterpartOf v m)) = true
    · rw [if_pos hany]
      refine ih acc c hfindc ?_
      rcases hcase with h | ⟨m1, hm1, hc1⟩
      · exact Or.inl h
      · rcases List.mem_cons.1 hm1 with rfl | hm1r
        · obtain ⟨t, ht, htc⟩ := List.any_eq_true.1 hany
          rw [decide_eq_true_eq] at htc
          exact Or.inl ⟨t, ht, htc.trans hc1⟩
        · exact Or.inr ⟨m1, hm1r, hc1⟩
    · rw [if_neg hany]
      rcases hfind : users.find? (fun u => decide (u.id = counterpartOf v m)) with _ | u
      · rw [hfind]
        refine ih acc c hfindc ?_
        rcases hcase with h | ⟨m1, hm1, hc1⟩
        · exact Or.inl h
        · rcases List.mem_cons.1 hm1 with rfl | hm1r
          · exfalso
            subst hc1
            rw [hfind] at hfindc
            cases hfindc
          · exact Or.inr ⟨m1, hm1r, hc1⟩
      · rw [hfind]
        have huid : u.id = counterpartOf v m := by
          have := List.find?_some hfind
          rwa [decide_eq_true_eq] at this
        refine ih _ c hfindc ?_
        rcases hcase with ⟨t, ht, htc⟩ | ⟨m1, hm1, hc1⟩
        · exact Or.inl ⟨t, List.mem_append_left _ ht, htc⟩
        · rcases List.mem_cons.1 hm1 with rfl | hm1r
          · exact Or.inl ⟨_, List.mem_append_right _ (List.mem_singleton_self _),
              huid.trans hc1⟩
          · exact Or.inr ⟨m1, hm1r, hc1⟩

end Chat

namespace Chat

/-- Claim C4: listConversations yields one summary per counterpart of the
viewer (exactly the counterparts occurring in the store), each built from
the most recent message of the pair with the pair's unread count recomputed
from the full store, and the output is ordered by descending recency of
each pair's latest message. -/
theorem C4_list_conversations (users : List UserRow) (store : List (Message Int))
    (v : Int)
    (husers : ∀ m ∈ store, involvesViewer v m = true →
      (users.find? (fun u => decide (u.id = counterpartOf v m))).isSome = true) :
    (∀ s ∈ getConversations users store v,
      s.unread_count = store.countP (fun m2 =>
        decide (m2.sender_id = s.user_id) && decide (m2.receiver_id = v) && ! m2.is_read)) ∧
    ((getConversations users store v).map (fun s => s.user_id)).Nodup ∧
    (∀ c : Int, (∃ s ∈ getConversations users store v, s.user_id = c) ↔
      (∃ m ∈ store, involvesViewer v m = true ∧ counterpartOf v m = c)) ∧
    (∀ s ∈ getConversations users store v,
      ∃ m ∈ store, involvesViewer v m = true ∧ counterpartOf v m = s.user_id ∧
        s.last_message = m.content.take 50 ∧ s.last_message_time = m.created_at ∧
        ∀ m2 ∈ store, involvesViewer v m2 = true → counterpartOf v m2 = s.user_id →
          m2.created_at ≤ m.created_at) ∧
    (getConversations users store v).Pairwise
      (fun a b => b.last_message_time ≤ a.last_message_time) := by
  have hsorted : ((store.filter (involvesViewer v)).insertionSort msgRecencyGe).Pairwise
      msgRecencyGe := List.sorted_insertionSort _ _
  have hmemL : ∀ m : Message Int,
      m ∈ (store.filter (involvesViewer v)).insertionSort msgRecencyGe ↔
        (m ∈ store ∧ involvesViewer v m = true) := fun m => by
    rw [(List.perm_insertionSort msgRecencyGe _).mem_iff, List.mem_filter]
  have hspec := buildConvs_spec users store v
    ((store.filter (involvesViewer v)).insertionSort msgRecencyGe) [] hsorted
  refine ⟨?_, ?_, ?_, ?_, ?_⟩
  · intro s hs
    rcases hspec s hs with h0 | ⟨_, _, hcount, _⟩
    · exact absurd h0 (List.not_mem_nil s)
    · exact hcount
  · exact buildConvs_keys_nodup users store v _ [] (by simp)
  · intro c
    constructor
    · rintro ⟨s, hs, rfl⟩
      rcases hspec s hs with h0 | ⟨_, _, _, m, hmL, hcp, _⟩
      · exact absurd h0 (List.not_mem_nil s)
      · obtain ⟨hm_store, hm_inv⟩ := (hmemL m).1 hmL
        exact ⟨m, hm_store, hm_inv, hcp⟩
    · rintro ⟨m, hm, hinv, hcp⟩
      have hfind := husers m hm hinv
      rw [hcp] at hfind
      obtain ⟨s, hs, hsc⟩ := buildConvs_complete users store v _ [] c hfind
        (Or.inr ⟨m, (hmemL m).2 ⟨hm, hinv⟩, hcp⟩)
      exact ⟨s, hs, hsc⟩
  · intro s hs
    rcases hspec s hs with h0 | ⟨_, _, _, m, hmL, hcp, hlm, hlt, hmax⟩
    · exact absurd h0 (List.not_mem_nil s)
    · obtain ⟨hm_store, hm_inv⟩ := (hmemL m).1 hmL
      exact ⟨m, hm_store, hm_inv, hcp, hlm, hlt, fun m2 hm2 hinv2 hcp2 =>
        hmax m2 ((hmemL m2).2 ⟨hm2, hinv2⟩) hcp2⟩
  · exact buildConvs_sorted users store v _ [] hsorted List.Pairwise.nil (by simp)

/-- Witness for C4 on a concrete three-message store between users 1 and 2. -/
theorem C4_list_conversations_witness :
    ((getConversations demoUsers
        [⟨1, ['a'], 2, 1, false, none, 5⟩, ⟨2, ['b'], 1, 2, false, none, 8⟩,
         ⟨3, ['c'], 2, 1, false, none, 2⟩] 1).map (fun s => s.user_id)).Nodup ∧
    (∀ s ∈ getConversations demoUsers
        [⟨1, ['a'], 2, 1, false, none, 5⟩, ⟨2, ['b'], 1, 2, false, none, 8⟩,
         ⟨3, ['c'], 2, 1, false, none, 2⟩] 1,
      s.unread_count = [⟨1, ['a'], 2, 1, false, none, 5⟩, ⟨2, ['b'], 1, 2, false, none, 8⟩,
         (⟨3, ['c'], 2, 1, false, none, 2⟩ : Message Int)].countP (fun m2 =>
        decide (m2.sender_id = s.user_id) && decide (m2.receiver_id = 1) && ! m2.is_read)) ∧
    (getConversations demoUsers
        [⟨1, ['a'], 2, 1, false, none, 5⟩, ⟨2, ['b'], 1, 2, false, none, 8⟩,
         ⟨3, ['c'], 2, 1, false, none, 2⟩] 1).Pairwise
      (fun a b => b.last_message_time ≤ a.last_message_time) :=
  ⟨(C4_list_conversations demoUsers
      [⟨1, ['a'], 2, 1, false, none, 5⟩, ⟨2, ['b'], 1, 2, false, none, 8⟩,
       ⟨3, ['c'], 2, 1, false, none, 2⟩] 1 (by decide)).2.1,
   (C4_list_conversations demoUsers
      [⟨1, ['a'], 2, 1, false, none, 5⟩, ⟨2, ['b'], 1, 2, false, none, 8⟩,
       ⟨3, ['c'], 2, 1, false, none, 2⟩] 1 (by decide)).1,
   (C4_list_conversations demoUsers
      [⟨1, ['a'], 2, 1, false, none, 5⟩, ⟨2, ['b'], 1, 2, false, none, 8⟩,
       ⟨3, ['c'], 2, 1, false, none, 2⟩] 1 (by decide)).2.2.2.2⟩

/-- Claim C10: every conversation summary's last_message is the 50-character
truncation of the most recent message's content: it is at most 50 characters,
and when the content is longer it is a strict prefix, not the full text. -/
theorem C10_last_message_truncation (users : List UserRow)
    (store : List (Message Int)) (v : Int) (s : ConversationSummary)
    (hs : s ∈ getConversations users store v) :
    ∃ m, m ∈ store ∧ involvesViewer v m = true ∧
      s.last_message = m.content.take 50 ∧ s.last_message.length ≤ 50 ∧
      (50 < m.content.length →
        s.last_message.length = 50 ∧ s.last_message ≠ m.content ∧
        s.last_message ++ m.content.drop 50 = m.content) := by
  have hsorted : ((store.filter (involvesViewer v)).insertionSort msgRecencyGe).Pairwise
      msgRecencyGe := List.sorted_insertionSort _ _
  rcases buildConvs_spec users store v
      ((store.filter (involvesViewer v)).insertionSort msgRecencyGe) [] hsorted s hs with
    h0 | ⟨_, _, _, m, hmL, _, hlm, _, _⟩
  · exact absurd h0 (List.not_mem_nil s)
  · have hm2 : m ∈ store.filter (involvesViewer v) :=
      (List.perm_insertionSort msgRecencyGe _).mem_iff.1 hmL
    refine ⟨m, (List.mem_filter.1 hm2).1, (List.mem_filter.1 hm2).2, hlm, ?_, ?_⟩
    · rw [hlm, List.length_take]
      exact min_le_left _ _
    · intro hlong
      have hlen : (m.content.take 50).length = 50 := by
        rw [List.length_take]
        exact min_eq_left (le_of_lt hlong)
      refine ⟨hlm ▸ hlen, ?_, ?_⟩
      · rw [hlm]
        intro hx
        rw [hx] at hlen
        rw [hlen] at hlong
        exact lt_irrefl _ hlong
      · rw [hlm]
        exact List.take_append_drop 50 m.content

/-- Witness for C10: a 60-character message is summarized by its first 50
characters. -/
theorem C10_last_message_truncation_witness :
    ∃ m, m ∈ [(⟨1, List.replicate 60 'a', 2, 1, false, none, 5⟩ : Message Int)] ∧
      involvesViewer 1 m = true ∧
      (⟨2, "bob", none, List.replicate 50 'a', 5, 1⟩ : ConversationSummary).last_message =
        m.content.take 50 ∧
      (⟨2, "bob", none, List.replicate 50 'a', 5, 1⟩ : ConversationSummary).last_message.length ≤ 50 ∧
      (50 < m.content.length →
        (⟨2, "bob", none, List.replicate 50 'a', 5, 1⟩ : ConversationSummary).last_message.length = 50 ∧
        (⟨2, "bob", none, List.replicate 50 'a', 5, 1⟩ : ConversationSummary).last_message ≠ m.content ∧
        (⟨2, "bob", none, List.replicate 50 'a', 5, 1⟩ : ConversationSummary).last_message ++
          m.content.drop 50 = m.content) :=
  C10_last_message_truncation demoUsers
    [⟨1, List.replicate 60 'a', 2, 1, false, none, 5⟩] 1
    ⟨2, "bob", none, List.replicate 50 'a', 5, 1⟩ (by decide)

/-- Witness for C3: an unknown counterpart id 7 yields 404 and an unchanged
store. -/
theorem C3_get_history_witness :
    getHistory demoUsers [⟨1, ['a'], 2, 1, false, none, 3⟩] 1 7 0 50 9 =
      ([⟨1, ['a'], 2, 1, false, none, 3⟩], .error ⟨404, "User not found"⟩) :=
  (C3_get_history demoUsers [⟨1, ['a'], 2, 1, false, none, 3⟩] 1 7 0 50 9
    (by decide)).1 (by decide)

end Chat
